import Mathlib

/-!
Shallow embedding of the notssh coordinator (notssh-server) core: the
relational store over `clients` / `actions` / `ping` / `shell` / `purge`
tables (src/notssh-server/src/model.rs), the agent-facing `Poll` endpoint
with its inbound result pump and outbound dispatcher
(src/notssh-server/src/api.rs), the operator control RPCs and their
result-wait loop (src/notssh-server/src/cli.rs), and the sweeper's final
shutdown pass (src/notssh-server/src/main.rs).

Database rows are Lean structures; a table is the list of its rows; a SQL
statement is a pure function on those lists, faithful to the exact column
lists of the statements in model.rs (in particular, `Client::update` writes
only `connected` and `last_online`, and `Action::update` writes only
`started_at`, `state`, `error`, `result`).  Fallible lookups return
`Except Err`; environment faults that the code only logs and retries
(transaction begin/commit failures, backend write failures) are outside the
model, which captures the row-level semantics of each committed path.
Timestamps are abstract `Nat` instants supplied by the caller (`Utc::now()`
becomes a `now` parameter), and byte blobs are `List Nat`.
-/

namespace NotSSH

/-- Error kinds of notssh-util/src/error.rs. -/
inductive ErrorKind
  | DB
  | NotFound
  | InOut
  | BadRequest
  | Tonic
  | Arg
deriving DecidableEq

/-- Embedding of notssh_util::error::Error: a kind plus a description. -/
structure Err where
  kind : ErrorKind
  description : String
deriving DecidableEq

/-- Decidable equality for `Except`, used to evaluate concrete runs of the
fallible operations. -/
instance instDecEqExcept {ε α : Type} [DecidableEq ε] [DecidableEq α] :
    DecidableEq (Except ε α) := fun x y =>
  match x, y with
  | Except.ok a, Except.ok b =>
    if h : a = b then isTrue (congrArg Except.ok h)
    else isFalse (fun hc => h (Except.ok.inj hc))
  | Except.error a, Except.error b =>
    if h : a = b then isTrue (congrArg Except.error h)
    else isFalse (fun hc => h (Except.error.inj hc))
  | Except.ok _, Except.error _ => isFalse (fun hc => Except.noConfusion hc)
  | Except.error _, Except.ok _ => isFalse (fun hc => Except.noConfusion hc)

/-- Constructor mirroring Error::not_found. -/
def Err.notFound (d : String) : Err := ⟨ErrorKind.NotFound, d⟩

/-- Constructor mirroring Error::bad_request. -/
def Err.badRequest (d : String) : Err := ⟨ErrorKind.BadRequest, d⟩

/-- Status codes of the tonic statuses the embedded code constructs. -/
inductive StatusCode
  | okCode
  | invalidArgument
  | notFoundCode
  | internalCode
  | deadlineExceeded
  | unavailable
  | cancelled
deriving DecidableEq

/-- Embedding of tonic::Status: a code and a message. -/
structure Status where
  code : StatusCode
  message : String
deriving DecidableEq

/-- Mirror of tonic::Status::invalid_argument. -/
def Status.invalidArgument (m : String) : Status := ⟨StatusCode.invalidArgument, m⟩

/-- Mirror of tonic::Status::not_found. -/
def Status.notFound (m : String) : Status := ⟨StatusCode.notFoundCode, m⟩

/-- Mirror of tonic::Status::internal. -/
def Status.internal (m : String) : Status := ⟨StatusCode.internalCode, m⟩

/-- Mirror of tonic::Status::deadline_exceeded. -/
def Status.deadlineExceeded (m : String) : Status := ⟨StatusCode.deadlineExceeded, m⟩

/-- Mirror of tonic::Status::unavailable. -/
def Status.unavailable (m : String) : Status := ⟨StatusCode.unavailable, m⟩

/-- Mirror of tonic::Status::cancelled. -/
def Status.cancelled (m : String) : Status := ⟨StatusCode.cancelled, m⟩

/-- Embedding of `impl From<Error> for tonic::Status` (error.rs):
NotFound maps to NotFound, BadRequest to InvalidArgument, everything else
to Internal with the fixed "internal error" message. -/
def Err.toStatus : Err → Status
  | ⟨ErrorKind.NotFound, d⟩ => Status.notFound d
  | ⟨ErrorKind.BadRequest, d⟩ => Status.invalidArgument d
  | ⟨_, _⟩ => Status.internal "internal error"

/-- Row of the `clients` table (model.rs `struct Client`). -/
structure Client where
  id : String
  address : Option String
  connected : Bool
  last_online : Nat
deriving DecidableEq

/-- Embedding of `SELECT * FROM clients WHERE id = $1` via fetch_one
(model.rs Client::get): the first row with the given id, or the sqlx
RowNotFound error, which error.rs maps to `Error::not_found("not found")`. -/
def Client.get (id : String) (clients : List Client) : Except Err Client :=
  match clients.find? (fun c => c.id = id) with
  | some c => Except.ok c
  | none => Except.error (Err.notFound "not found")

/-- Embedding of `UPDATE clients SET (connected, last_online) = ($1, $2)
WHERE id = $3` (model.rs Client::update).  Only the `connected` and
`last_online` columns are written; `address` is not part of the statement. -/
def Client.update (c : Client) (clients : List Client) : List Client :=
  clients.map (fun r =>
    if r.id = c.id then { r with connected := c.connected, last_online := c.last_online } else r)

/-- Action command kinds (model.rs `enum ActionCommand`). -/
inductive ActionCommand
  | Ping
  | Purge
  | Shell
deriving DecidableEq

/-- Action states (model.rs `enum ActionState`). -/
inductive ActionState
  | Pending
  | Running
  | Finished
deriving DecidableEq

/-- Row of the `actions` table (model.rs `struct Action`). -/
structure Action where
  id : String
  client_id : String
  created_at : Nat
  started_at : Option Nat
  timeout : Option Int
  command : ActionCommand
  state : ActionState
  error : Option (List Nat)
  result : Option (List Nat)
deriving DecidableEq

/-- Embedding of model.rs `Action::new`: fresh id and creation instant are
effects (Uuid::new_v4, Utc::now) passed in by the caller; the new action is
Pending with no timestamps, timeout, error or result. -/
def Action.new (id : String) (now : Nat) (client_id : String) (command : ActionCommand) : Action :=
  { id := id
    client_id := client_id
    created_at := now
    started_at := none
    timeout := none
    command := command
    state := ActionState.Pending
    error := none
    result := none }

/-- Embedding of `SELECT * FROM actions WHERE id = $1` via fetch_one
(model.rs Action::get). -/
def Action.get (id : String) (actions : List Action) : Except Err Action :=
  match actions.find? (fun a => a.id = id) with
  | some a => Except.ok a
  | none => Except.error (Err.notFound "not found")

/-- Embedding of `SELECT * FROM actions WHERE client_id = $1 AND state = $2
ORDER BY created_at LIMIT 1` with state bound to Pending (model.rs
Action::get_next): among the rows for `client_id` in state Pending, one
with the least `created_at` (the first such row, a stable refinement of the
unspecified ORDER BY tie-break), or none. -/
def Action.get_next (client_id : String) (actions : List Action) : Option Action :=
  (actions.filter (fun a => a.client_id = client_id ∧ a.state = ActionState.Pending)).foldl
    (fun acc a =>
      match acc with
      | none => some a
      | some m => if a.created_at < m.created_at then some a else acc)
    none

/-- Embedding of `UPDATE actions SET (started_at, state, error, result) =
($1, $2, $3, $4) WHERE id = $5` (model.rs Action::update).  Exactly these
four columns are written. -/
def Action.update (a : Action) (actions : List Action) : List Action :=
  actions.map (fun r =>
    if r.id = a.id then
      { r with started_at := a.started_at, state := a.state, error := a.error, result := a.result }
    else r)

/-- Embedding of `INSERT INTO actions ... VALUES ...` (model.rs
Action::create): appends the row; a duplicate primary key makes the INSERT
fail with a backend error, which error.rs maps to a DB-kind error. -/
def Action.create (a : Action) (actions : List Action) : Except Err (List Action) :=
  if actions.any (fun r => r.id = a.id) then
    Except.error ⟨ErrorKind.DB, "duplicate key"⟩
  else
    Except.ok (actions ++ [a])

/-- Row of the `ping` side table (model.rs `struct PingCommand`). -/
structure PingCommand where
  id : String
  data : String
deriving DecidableEq

/-- Embedding of `SELECT * FROM ping WHERE id = $1` via fetch_one
(model.rs PingCommand::get). -/
def PingCommand.get (id : String) (ping : List PingCommand) : Except Err PingCommand :=
  match ping.find? (fun p => p.id = id) with
  | some p => Except.ok p
  | none => Except.error (Err.notFound "not found")

/-- Embedding of `INSERT INTO ping (id, data) VALUES ($1, $2)`
(model.rs PingCommand::create). -/
def PingCommand.create (p : PingCommand) (ping : List PingCommand) :
    Except Err (List PingCommand) :=
  if ping.any (fun r => r.id = p.id) then
    Except.error ⟨ErrorKind.DB, "duplicate key"⟩
  else
    Except.ok (ping ++ [p])

/-- Embedding of `DELETE FROM ping WHERE id = $1` (model.rs
PingCommand::delete): removes every row with the id; deleting an absent row
succeeds with zero rows affected. -/
def PingCommand.delete (id : String) (ping : List PingCommand) : List PingCommand :=
  ping.filter (fun p => ¬ p.id = id)

/-- Row of the `shell` side table (model.rs `struct ShellCommand`). -/
structure ShellCommand where
  id : String
  cmd : String
  args : List String
  stdin : List Nat
deriving DecidableEq

/-- Embedding of `SELECT * FROM shell WHERE id = $1` via fetch_one
(model.rs ShellCommand::get). -/
def ShellCommand.get (id : String) (shell : List ShellCommand) : Except Err ShellCommand :=
  match shell.find? (fun s => s.id = id) with
  | some s => Except.ok s
  | none => Except.error (Err.notFound "not found")

/-- Embedding of `INSERT INTO shell (id, cmd, args, stdin) VALUES ...`
(model.rs ShellCommand::create). -/
def ShellCommand.create (s : ShellCommand) (shell : List ShellCommand) :
    Except Err (List ShellCommand) :=
  if shell.any (fun r => r.id = s.id) then
    Except.error ⟨ErrorKind.DB, "duplicate key"⟩
  else
    Except.ok (shell ++ [s])

/-- Embedding of `DELETE FROM shell WHERE id = $1` (model.rs
ShellCommand::delete). -/
def ShellCommand.delete (id : String) (shell : List ShellCommand) : List ShellCommand :=
  shell.filter (fun s => ¬ s.id = id)

/-- Whole relational store: one list per table (`purge` rows carry only an
id). -/
structure Store where
  clients : List Client
  actions : List Action
  ping : List PingCommand
  shell : List ShellCommand
  purge : List String
deriving DecidableEq

/-- UTF-8 encoding of one Unicode scalar value (Rust `String::into_bytes`
produces the UTF-8 encoding of the string). -/
def utf8EncodeChar (c : Nat) : List Nat :=
  if c < 0x80 then [c]
  else if c < 0x800 then [0xC0 + c / 0x40, 0x80 + c % 0x40]
  else if c < 0x10000 then [0xE0 + c / 0x1000, 0x80 + (c / 0x40) % 0x40, 0x80 + c % 0x40]
  else [0xF0 + c / 0x40000, 0x80 + (c / 0x1000) % 0x40, 0x80 + (c / 0x40) % 0x40, 0x80 + c % 0x40]

/-- Codepoints of a Lean string. -/
def strCodepoints (s : String) : List Nat :=
  s.data.map Char.toNat

/-- UTF-8 bytes of a string, mirroring Rust `String::into_bytes` /
`Vec<u8>::from(String)`. -/
def utf8Encode (s : String) : List Nat :=
  ((strCodepoints s).map utf8EncodeChar).flatten

/-- UTF-8 validation and decoding to codepoints, mirroring the validation
done by Rust `String::from_utf8`: rejects stray continuation bytes, overlong
encodings, surrogates (lead 0xED with second byte ≥ 0xA0) and codepoints
above 0x10FFFF (leads ≥ 0xF5, or 0xF0/0xF4 with out-of-range second byte). -/
def utf8Decode (bs : List Nat) : Option (List Nat) :=
  match bs with
  | [] => some []
  | b :: rest =>
    if b < 0x80 then (utf8Decode rest).map (fun cps => b :: cps)
    else if b < 0xC2 then none
    else if b < 0xE0 then
      match rest with
      | c1 :: rest2 =>
        if 0x80 ≤ c1 ∧ c1 < 0xC0 then
          (utf8Decode rest2).map (fun cps => ((b - 0xC0) * 0x40 + (c1 - 0x80)) :: cps)
        else none
      | [] => none
    else if b < 0xF0 then
      match rest with
      | c1 :: c2 :: rest2 =>
        if (if b = 0xE0 then 0xA0 ≤ c1 ∧ c1 < 0xC0
            else if b = 0xED then 0x80 ≤ c1 ∧ c1 < 0xA0
            else 0x80 ≤ c1 ∧ c1 < 0xC0) ∧ 0x80 ≤ c2 ∧ c2 < 0xC0 then
          (utf8Decode rest2).map
            (fun cps => ((b - 0xE0) * 0x1000 + (c1 - 0x80) * 0x40 + (c2 - 0x80)) :: cps)
        else none
      | _ => none
    else if b < 0xF5 then
      match rest with
      | c1 :: c2 :: c3 :: rest2 =>
        if (if b = 0xF0 then 0x90 ≤ c1 ∧ c1 < 0xC0
            else if b = 0xF4 then 0x80 ≤ c1 ∧ c1 < 0x90
            else 0x80 ≤ c1 ∧ c1 < 0xC0) ∧ 0x80 ≤ c2 ∧ c2 < 0xC0 ∧ 0x80 ≤ c3 ∧ c3 < 0xC0 then
          (utf8Decode rest2).map
            (fun cps =>
              ((b - 0xF0) * 0x40000 + (c1 - 0x80) * 0x1000 + (c2 - 0x80) * 0x40 + (c3 - 0x80)) :: cps)
        else none
      | _ => none
    else none

/-- String from decoded codepoints (the decoder only produces Unicode
scalar values, so `Char.ofNat` is exact on them). -/
def strFromCodepoints (cps : List Nat) : String :=
  String.mk (cps.map Char.ofNat)

/-- Tagged result variant of the agent's `Res` message
(proto `res::Result`). -/
inductive ResResult
  | Pong (pong : String)
  | Purge
  | Shell (code : Int) (stdout : List Nat) (stderr : List Nat)
deriving DecidableEq

/-- Inbound `Res` message from the agent: action id plus optional result
variant. -/
structure Res where
  id : String
  result : Option ResResult
deriving DecidableEq

/-- Tagged command variant of the outbound `Action` message
(proto `action::Command`). -/
inductive Command
  | Ping (ping : String)
  | Purge
  | Shell (cmd : String) (args : List String) (stdin : List Nat)
deriving DecidableEq

/-- Outbound `Action` proto message handed to the agent (named `ActionMsg`
here to keep it apart from the `actions` table row). -/
structure ActionMsg where
  id : String
  command : Option Command
deriving DecidableEq

/-- Loop control of the inbound pump iteration. -/
inductive LoopCtl
  | cont
  | brk
deriving DecidableEq

/-- One iteration of the inbound result pump loop (api.rs
`Server::poll_results`, lines 41-111), for a freshly received message
`res`, against the store `st` as the opened transaction sees it.  The
returned store is the state after the iteration (equal to `st` when the
transaction rolled back), together with the loop control: `brk` when the
iteration breaks out of the pump (which then runs the teardown).
Transaction begin/commit failures and backend write failures, which the
code only logs, are outside the model. -/
def Server.poll_results_step (st : Store) (client_id : String) (now : Nat) (res : Res) :
    Store × LoopCtl :=
  match Action.get res.id st.actions with
  | Except.error _ => (st, LoopCtl.cont)
  | Except.ok act0 =>
    let pair : Store × Action :=
      match res.result with
      | none => (st, act0)
      | some (ResResult.Pong p) =>
        ({ st with ping := PingCommand.delete res.id st.ping },
         { act0 with result := some (utf8Encode p) })
      | some ResResult.Purge => (st, { act0 with result := some (utf8Encode "purged") })
      | some (ResResult.Shell code out errb) =>
        ({ st with shell := ShellCommand.delete res.id st.shell },
         if code ≠ 0 then { act0 with error := some errb }
         else { act0 with result := some out })
    let act2 : Action := { pair.2 with state := ActionState.Finished }
    let st2 : Store := { pair.1 with actions := Action.update act2 pair.1.actions }
    match Client.get client_id st2.clients with
    | Except.error _ => (st, LoopCtl.brk)
    | Except.ok client =>
      let st3 : Store :=
        { st2 with clients := Client.update { client with last_online := now } st2.clients }
      match res.result with
      | none => (st3, LoopCtl.brk)
      | some _ => (st3, LoopCtl.cont)

/-- Session teardown after the inbound pump stops (api.rs
`Server::poll_results`, lines 115-146): reload the client, set
`connected=false`, clear the in-memory `address`, refresh `last_online`,
and persist through `Client::update`. -/
def Server.poll_results_teardown (st : Store) (client_id : String) (now : Nat) : Store :=
  match Client.get client_id st.clients with
  | Except.error _ => st
  | Except.ok c =>
    let c2 : Client := { c with connected := false, address := none, last_online := now }
    { st with clients := Client.update c2 st.clients }

/-- Outcome of one iteration of the outbound dispatcher loop. -/
inductive DispatchStep
  | fail (s : Status)
  | sleep (st : Store)
  | yielded (st : Store) (msg : ActionMsg)
deriving DecidableEq

/-- One iteration of the outbound dispatcher loop inside `Server::poll`
(api.rs lines 295-350): load the client (a failure or `connected=false`
ends the stream with an error status), fetch the next pending action
(none: commit and sleep 1 s), materialise the agent-visible message from
the side table, set `started_at = now` and `state = Running`, persist and
commit, and only then yield the message.  In the `yielded` outcome the
carried store is the committed one, so the yield happens strictly after the
commit of the Pending to Running transition. -/
def Server.dispatch_step (st : Store) (id : String) (now : Nat) : DispatchStep :=
  match Client.get id st.clients with
  | Except.error e => DispatchStep.fail e.toStatus
  | Except.ok client =>
    if client.connected = false then DispatchStep.fail (Status.cancelled "client disconnected")
    else
      match Action.get_next id st.actions with
      | none => DispatchStep.sleep st
      | some act =>
        let peer : Except Err ActionMsg :=
          match act.command with
          | ActionCommand.Ping =>
            (PingCommand.get act.id st.ping).map
              (fun p => ⟨act.id, some (Command.Ping p.data)⟩)
          | ActionCommand.Purge => Except.ok ⟨act.id, some Command.Purge⟩
          | ActionCommand.Shell =>
            (ShellCommand.get act.id st.shell).map
              (fun s => ⟨act.id, some (Command.Shell s.cmd s.args s.stdin)⟩)
        match peer with
        | Except.error e => DispatchStep.fail e.toStatus
        | Except.ok msg =>
          let act2 : Action := { act with started_at := some now, state := ActionState.Running }
          DispatchStep.yielded { st with actions := Action.update act2 st.actions } msg

/-- Predicate of http `HeaderValue::to_str` (used by tonic metadata): a
byte is acceptable iff it is visible ASCII or horizontal tab. -/
def is_visible_ascii (b : Nat) : Bool :=
  (32 ≤ b ∧ b < 127) ∨ b = 9

/-- Embedding of `MetadataValue::to_str`: succeeds iff every byte passes
`is_visible_ascii`, yielding the value as a string. -/
def MetadataValue.to_str (bs : List Nat) : Option String :=
  if bs.all is_visible_ascii then some (String.mk (bs.map Char.ofNat)) else none

/-- Incoming `Poll` request as the handler sees it: the raw bytes of the
`x-client-id` metadata value when the header is present, and the observed
peer address. -/
structure PollRequest where
  header : Option (List Nat)
  remote_addr : Option String
deriving DecidableEq

/-- Outcome of the `Poll` handler's setup phase: the `id.to_str().unwrap()`
panics on a header value with non-visible-ASCII bytes; otherwise the
handler returns an error status (with the store unchanged, the transaction
having rolled back) or succeeds with the committed store and the client
id. -/
inductive PollSetup
  | panicked
  | err (st : Store) (s : Status)
  | ok (st : Store) (id : String)
deriving DecidableEq

/-- Setup phase of `Server::poll` (api.rs lines 243-287): extract the
`x-client-id` header (absence is `InvalidArgument`), unwrap its string
form (panics on non-visible-ASCII bytes), load the client, refuse with
`InvalidArgument "client is already connected"` when `connected` is
already true, otherwise set `connected=true`, `last_online=now`, the
in-memory address from the peer address, persist via `Client::update` and
commit. -/
def Server.poll_setup (st : Store) (now : Nat) (req : PollRequest) : PollSetup :=
  match req.header with
  | none => PollSetup.err st (Status.invalidArgument "x-client-id header is missing")
  | some bs =>
    match MetadataValue.to_str bs with
    | none => PollSetup.panicked
    | some id =>
      match Client.get id st.clients with
      | Except.error e => PollSetup.err st e.toStatus
      | Except.ok client =>
        if client.connected then
          PollSetup.err st (Status.invalidArgument "client is already connected")
        else
          let c2 : Client :=
            { client with
              connected := true
              last_online := now
              address := match req.remote_addr with
                         | some a => some a
                         | none => client.address }
          PollSetup.ok { st with clients := Client.update c2 st.clients } id

/-- Final pass of the sweeper on coordinator shutdown (main.rs `gc`, lines
185-203): for every client found with `connected=true`, set
`connected=false` and clear the in-memory `address`, then persist each one
through `Client::update` and commit. -/
def gc_final_pass (st : Store) : Store :=
  (st.clients.filter (fun c => c.connected)).foldl
    (fun acc c =>
      { acc with
        clients := Client.update { c with connected := false, address := none } acc.clients })
    st

/-- Observation made by one tick of the `wait_for_result` poll loop
(cli.rs lines 284-304): the combined outcome of beginning the transaction
and running `Action::get(id)` at that tick.  An `Except.error` covers both
a begin failure and a lookup failure, which the loop logs and retries. -/
def WaitObs : Type := Except Err Action

/-- Body of the poll loop of `wait_for_result` (cli.rs lines 284-304) over
the finite list of tick observations the loop gets to make before its
caller's timeout fires: skip every errored tick, and break with the action
the first time a tick observes `state = Finished`.  `none` means the loop
was still running when the observations ran out (the caller's timeout is
the only exit then). -/
def wait_loop : List WaitObs → Option Action
  | [] => none
  | Except.error _ :: rest => wait_loop rest
  | Except.ok a :: rest =>
    if a.state = ActionState.Finished then some a else wait_loop rest

/-- Embedding of `wait_for_result` (cli.rs lines 282-306): the loop only
ever breaks with a Finished action, and the function wraps that action in
`Ok`; its `error::Result` type never carries an error to the caller. -/
def wait_for_result (obs : List WaitObs) : Option (Except Err Action) :=
  (wait_loop obs).map Except.ok

/-- Kind-specific timeout for Ping control RPCs, seconds
(cli.rs `CliServer::PING_TIMEOUT`). -/
def CliServer.PING_TIMEOUT : Nat := 10

/-- Kind-specific timeout for Purge control RPCs, seconds
(cli.rs `CliServer::PURGE_TIMEOUT`). -/
def CliServer.PURGE_TIMEOUT : Nat := 60

/-- Kind-specific timeout for Shell control RPCs, seconds
(cli.rs `CliServer::SHELL_TIMEOUT`). -/
def CliServer.SHELL_TIMEOUT : Nat := 3600

/-- Poll interval of `wait_for_result`, seconds (cli.rs line 283). -/
def WAIT_POLL_INTERVAL : Nat := 2

/-- Empty `PingResponse` message. -/
inductive PingResponse
  | mk
deriving DecidableEq

/-- The `PurgeResponse` message. -/
structure PurgeResponse where
  text : String
deriving DecidableEq

/-- The `ShellResponse` message. -/
structure ShellResponse where
  stdout : List Nat
  stderr : List Nat
deriving DecidableEq

/-- The `Ping` control RPC (cli.rs `CliServer::ping`, lines 66-136):
load the target client, insert a Pending Ping action (fresh id `act_id`)
with a `PingCommand` row carrying the nonce "ping", commit, then run
`wait_for_result` under `PING_TIMEOUT` (`obs` are the poll-tick
observations that fit in the timeout; their exhaustion is the timeout).
On success, the result must decode as UTF-8 (a decode failure maps
BadRequest to `InvalidArgument`) and equal the nonce, else `Unavailable`.
Returns the handler's final store view next to the RPC outcome. -/
def CliServer.ping (st : Store) (now : Nat) (act_id : String) (req_id : String)
    (obs : List WaitObs) : Store × Except Status PingResponse :=
  match Client.get req_id st.clients with
  | Except.error e => (st, Except.error e.toStatus)
  | Except.ok client =>
    let act := Action.new act_id now client.id ActionCommand.Ping
    let cmd : PingCommand := ⟨act_id, "ping"⟩
    let msg := cmd.data
    match Action.create act st.actions with
    | Except.error e => (st, Except.error e.toStatus)
    | Except.ok actions2 =>
      match PingCommand.create cmd st.ping with
      | Except.error e => (st, Except.error e.toStatus)
      | Except.ok ping2 =>
        let st1 : Store := { st with actions := actions2, ping := ping2 }
        match wait_for_result obs with
        | none => (st1, Except.error (Status.deadlineExceeded "action timeout"))
        | some (Except.error _) => (st1, Except.error (Status.internal "internal error"))
        | some (Except.ok act) =>
          match act.result with
          | some bytes =>
            match utf8Decode bytes with
            | none => (st1, Except.error (Err.badRequest "cannot parse ping response").toStatus)
            | some cps =>
              if cps = strCodepoints msg then (st1, Except.ok PingResponse.mk)
              else (st1, Except.error (Status.unavailable "could not receive ping from client"))
          | none => (st1, Except.error (Status.unavailable "could not receive ping from client"))

/-- The `Purge` control RPC (cli.rs `CliServer::purge`, lines 138-201):
same structure as Ping but with no side-table row and the sentinel result
"purged", under `PURGE_TIMEOUT`. -/
def CliServer.purge (st : Store) (now : Nat) (act_id : String) (req_id : String)
    (obs : List WaitObs) : Store × Except Status PurgeResponse :=
  match Client.get req_id st.clients with
  | Except.error e => (st, Except.error e.toStatus)
  | Except.ok client =>
    let act := Action.new act_id now client.id ActionCommand.Purge
    match Action.create act st.actions with
    | Except.error e => (st, Except.error e.toStatus)
    | Except.ok actions2 =>
      let st1 : Store := { st with actions := actions2 }
      match wait_for_result obs with
      | none => (st1, Except.error (Status.deadlineExceeded "action timeout"))
      | some (Except.error _) => (st1, Except.error (Status.internal "internal error"))
      | some (Except.ok act) =>
        match act.result with
        | some bytes =>
          match utf8Decode bytes with
          | none => (st1, Except.error (Err.badRequest "cannot parse purge response").toStatus)
          | some cps =>
            if cps = strCodepoints "purged" then
              (st1, Except.ok ⟨strFromCodepoints cps⟩)
            else (st1, Except.error (Status.unavailable "could not receive purge result from client"))
        | none => (st1, Except.error (Status.unavailable "could not receive purge result from client"))

/-- The `Shell` control RPC (cli.rs `CliServer::shell`, lines 203-279):
insert a Pending Shell action plus its `ShellCommand` row from the request,
commit, wait under `SHELL_TIMEOUT`; answer with the result as stdout when
present, else the error as stderr, else `Unavailable`. -/
def CliServer.shell (st : Store) (now : Nat) (act_id : String) (req_id : String)
    (cmd : String) (args : List String) (stdin : List Nat)
    (obs : List WaitObs) : Store × Except Status ShellResponse :=
  match Client.get req_id st.clients with
  | Except.error e => (st, Except.error e.toStatus)
  | Except.ok client =>
    let act := Action.new act_id now client.id ActionCommand.Shell
    let scmd : ShellCommand := ⟨act_id, cmd, args, stdin⟩
    match Action.create act st.actions with
    | Except.error e => (st, Except.error e.toStatus)
    | Except.ok actions2 =>
      match ShellCommand.create scmd st.shell with
      | Except.error e => (st, Except.error e.toStatus)
      | Except.ok shell2 =>
        let st1 : Store := { st with actions := actions2, shell := shell2 }
        match wait_for_result obs with
        | none => (st1, Except.error (Status.deadlineExceeded "action timeout"))
        | some (Except.error _) => (st1, Except.error (Status.internal "internal error"))
        | some (Except.ok act) =>
          match act.result with
          | some r => (st1, Except.ok ⟨r, []⟩)
          | none =>
            match act.error with
            | some e => (st1, Except.ok ⟨[], e⟩)
            | none =>
              (st1, Except.error (Status.unavailable "cannot receive shell result from client"))

/-! Helper lemmas about the row-level operations. -/

/-- A successful `Client::get` returns a stored row bearing the requested
id. -/
theorem Client.lookup_ok_mem {cid : String} {cl : List Client} {c : Client}
    (h : Client.get cid cl = Except.ok c) : c ∈ cl ∧ c.id = cid := by
  unfold Client.get at h
  cases hf : cl.find? (fun x => x.id = cid) with
  | none => rw [hf] at h; exact absurd h (by simp)
  | some x =>
    rw [hf] at h
    injection h with hx
    subst hx
    refine ⟨List.mem_of_find?_eq_some hf, ?_⟩
    simpa using List.find?_some hf

/-- A successful `Action::get` returns a stored row bearing the requested
id. -/
theorem Action.lookup_row_ok_mem {aid : String} {l : List Action} {a : Action}
    (h : Action.get aid l = Except.ok a) : a ∈ l ∧ a.id = aid := by
  unfold Action.get at h
  cases hf : l.find? (fun x => x.id = aid) with
  | none => rw [hf] at h; exact absurd h (by simp)
  | some x =>
    rw [hf] at h
    injection h with hx
    subst hx
    refine ⟨List.mem_of_find?_eq_some hf, ?_⟩
    simpa using List.find?_some hf

/-- Reading back an id right after `Action::update` wrote it: the first
stored row with that id is returned with exactly the four written columns
replaced. -/
theorem Action.get_update_found (u : Action) (id : String) (hu : u.id = id) :
    ∀ (l : List Action) (b : Action), Action.get id l = Except.ok b →
      Action.get id (Action.update u l) =
        Except.ok { b with started_at := u.started_at, state := u.state,
                           error := u.error, result := u.result } := by
  intro l
  induction l with
  | nil => intro b hb; simp [Action.get, List.find?] at hb
  | cons x xs ih =>
    intro b hb
    by_cases hx : x.id = id
    · have hbx : b = x := by
        simp [Action.get, List.find?, hx] at hb
        exact hb.symm
      subst hbx
      simp [Action.update, Action.get, List.find?, hx, hu]
    · have hxu : ¬ x.id = u.id := by rw [hu]; exact hx
      have hb' : Action.get id xs = Except.ok b := by
        simpa [Action.get, List.find?, hx] using hb
      have := ih b hb'
      simpa [Action.update, Action.get, List.find?, hx, hxu] using this

/-- When some stored row bears an id, `Action::get` of that id succeeds. -/
theorem Action.get_ok_of_mem {id : String} {l : List Action} {b : Action}
    (hb : b ∈ l) (hid : b.id = id) : ∃ c, Action.get id l = Except.ok c ∧ c.id = id := by
  induction l with
  | nil => cases hb
  | cons x xs ih =>
    by_cases hx : x.id = id
    · exact ⟨x, by simp [Action.get, List.find?, hx], hx⟩
    · cases List.mem_cons.mp hb with
      | inl h => exact absurd (h ▸ hid) hx
      | inr h =>
        obtain ⟨c, hc, hcid⟩ := ih h
        exact ⟨c, by simpa [Action.get, List.find?, hx] using hc, hcid⟩

/-! Claim theorems. -/

/-- C1: a `Poll` call whose `x-client-id` header identifies a client whose
`connected` flag is already true is rejected with
`InvalidArgument "client is already connected"`, and the client's stored
row is left unchanged (the carried store is the caller's store, the
transaction having written nothing). -/
theorem poll_rejects_already_connected (st : Store) (now : Nat) (req : PollRequest)
    (bs : List Nat) (id : String) (c : Client)
    (hh : req.header = some bs)
    (hs : MetadataValue.to_str bs = some id)
    (hg : Client.get id st.clients = Except.ok c)
    (hc : c.connected = true) :
    Server.poll_setup st now req =
      PollSetup.err st (Status.invalidArgument "client is already connected") := by
  simp [Server.poll_setup, hh, hs, hg, hc]

/-- Witness for C1 on a concrete one-client store. -/
theorem poll_rejects_already_connected_witness :
    Server.poll_setup ⟨[⟨"u", some "1.2.3.4", true, 5⟩], [], [], [], []⟩ 9 ⟨some [117], none⟩ =
      PollSetup.err ⟨[⟨"u", some "1.2.3.4", true, 5⟩], [], [], [], []⟩
        (Status.invalidArgument "client is already connected") :=
  poll_rejects_already_connected _ 9 _ [117] "u" ⟨"u", some "1.2.3.4", true, 5⟩ rfl
    (by decide) (by decide) rfl

/-- C10: when the `x-client-id` header is present but its value is not
convertible to a string (some byte is neither visible ASCII nor tab), the
`Poll` handler panics at the `to_str().unwrap()` instead of returning an
RPC error; when every byte is acceptable to `to_str`, the handler never
panics. -/
theorem poll_header_unwrap_panic (st : Store) (now : Nat) (req : PollRequest)
    (bs : List Nat) (hh : req.header = some bs) :
    (¬ bs.all is_visible_ascii = true → Server.poll_setup st now req = PollSetup.panicked) ∧
    (bs.all is_visible_ascii = true → Server.poll_setup st now req ≠ PollSetup.panicked) := by
  constructor
  · intro hbad
    simp [Server.poll_setup, hh, MetadataValue.to_str, hbad]
  · intro hgood
    simp only [Server.poll_setup, hh, MetadataValue.to_str, hgood, if_true]
    cases hcl : Client.get (String.mk (bs.map Char.ofNat)) st.clients with
    | error e => simp
    | ok client =>
      by_cases hc : client.connected
      · simp [hc]
      · simp [hc]

/-- Witness for C10: the byte 255 makes the handler panic, while the byte
117 (a visible-ASCII id) does not. -/
theorem poll_header_unwrap_panic_witness :
    Server.poll_setup ⟨[⟨"u", some "1.2.3.4", true, 5⟩], [], [], [], []⟩ 9 ⟨some [255], none⟩ =
      PollSetup.panicked ∧
    Server.poll_setup ⟨[⟨"u", some "1.2.3.4", true, 5⟩], [], [], [], []⟩ 9 ⟨some [117], none⟩ ≠
      PollSetup.panicked :=
  ⟨(poll_header_unwrap_panic _ 9 _ [255] rfl).1 (by decide),
   (poll_header_unwrap_panic _ 9 _ [117] rfl).2 (by decide)⟩

/-- The fold inside `Action::get_next`, when it yields a row, yields either
the seed or a list element, of minimal `created_at` among both. -/
theorem get_next_fold_some (l : List Action) :
    ∀ (acc : Option Action) (m : Action),
      l.foldl (fun acc a =>
        match acc with
        | none => some a
        | some m0 => if a.created_at < m0.created_at then some a else acc) acc = some m →
      (acc = some m ∨ m ∈ l) ∧ (∀ b ∈ l, m.created_at ≤ b.created_at) ∧
        (∀ a0, acc = some a0 → m.created_at ≤ a0.created_at) := by
  induction l with
  | nil =>
    intro acc m h
    simp only [List.foldl_nil] at h
    refine ⟨Or.inl h, by simp, ?_⟩
    intro a0 ha0
    rw [h] at ha0
    injection ha0 with ha0
    subst ha0
    omega
  | cons x xs ih =>
    intro acc m h
    rw [List.foldl_cons] at h
    obtain ⟨hmem, hmin, hacc⟩ := ih _ m h
    cases acc with
    | none =>
      have hx : m.created_at ≤ x.created_at := hacc x rfl
      refine ⟨?_, ?_, by intro a0 ha0; cases ha0⟩
      · cases hmem with
        | inl he => injection he with he; exact Or.inr (he ▸ List.mem_cons_self x xs)
        | inr hm => exact Or.inr (List.mem_cons_of_mem x hm)
      · intro b hb
        cases List.mem_cons.mp hb with
        | inl hbx => exact hbx ▸ hx
        | inr hbxs => exact hmin b hbxs
    | some m0 =>
      by_cases hlt : x.created_at < m0.created_at
      · simp only [hlt, if_pos] at hmem hacc
        have hx : m.created_at ≤ x.created_at := hacc x rfl
        refine ⟨?_, ?_, ?_⟩
        · cases hmem with
          | inl he => injection he with he; exact Or.inr (he ▸ List.mem_cons_self x xs)
          | inr hm => exact Or.inr (List.mem_cons_of_mem x hm)
        · intro b hb
          cases List.mem_cons.mp hb with
          | inl hbx => exact hbx ▸ hx
          | inr hbxs => exact hmin b hbxs
        · intro a0 ha0
          injection ha0 with ha0
          subst ha0
          omega
      · simp only [hlt, if_neg, not_false_iff] at hmem hacc
        have hm0 : m.created_at ≤ m0.created_at := hacc m0 rfl
        refine ⟨?_, ?_, ?_⟩
        · cases hmem with
          | inl he => exact Or.inl he
          | inr hm => exact Or.inr (List.mem_cons_of_mem x hm)
        · intro b hb
          cases List.mem_cons.mp hb with
          | inl hbx => subst hbx; omega
          | inr hbxs => exact hmin b hbxs
        · intro a0 ha0
          injection ha0 with ha0
          subst ha0
          omega

/-- The fold inside `Action::get_next` only yields nothing when both the
seed and the list are empty. -/
theorem get_next_fold_none (l : List Action) :
    ∀ (acc : Option Action),
      l.foldl (fun acc a =>
        match acc with
        | none => some a
        | some m0 => if a.created_at < m0.created_at then some a else acc) acc = none →
      acc = none ∧ l = [] := by
  induction l with
  | nil => intro acc h; exact ⟨h, rfl⟩
  | cons x xs ih =>
    intro acc h
    rw [List.foldl_cons] at h
    obtain ⟨hstep, -⟩ := ih _ h
    cases acc with
    | none => cases hstep
    | some m0 =>
      by_cases hlt : x.created_at < m0.created_at
      · simp [hlt] at hstep
      · simp [hlt] at hstep

/-- A row returned by `Action::get_next` is a stored row. -/
theorem Action.get_next_mem {cid : String} {acts : List Action} {a : Action}
    (h : Action.get_next cid acts = some a) : a ∈ acts := by
  unfold Action.get_next at h
  obtain ⟨hmem, -, -⟩ := get_next_fold_some _ none a h
  cases hmem with
  | inl he => cases he
  | inr hm => exact (List.mem_filter.mp hm).1

/-- C4: `Action::get_next` returns a Pending action of the requested
client with the smallest `created_at` among that client's Pending actions,
and returns none exactly when the client has no Pending action; rows in
state Running or Finished and rows of other clients are never returned. -/
theorem get_next_returns_earliest_pending (cid : String) (acts : List Action) :
    (∀ a, Action.get_next cid acts = some a →
       a ∈ acts ∧ a.client_id = cid ∧ a.state = ActionState.Pending ∧
       ∀ b ∈ acts, b.client_id = cid → b.state = ActionState.Pending →
         a.created_at ≤ b.created_at) ∧
    (Action.get_next cid acts = none ↔
       ∀ b ∈ acts, ¬ (b.client_id = cid ∧ b.state = ActionState.Pending)) := by
  constructor
  · intro a ha
    unfold Action.get_next at ha
    obtain ⟨hmem, hmin, -⟩ := get_next_fold_some _ none a ha
    have hafil : a ∈ acts.filter
        (fun a => decide (a.client_id = cid ∧ a.state = ActionState.Pending)) := by
      cases hmem with
      | inl he => cases he
      | inr hm => exact hm
    have := List.mem_filter.mp hafil
    obtain ⟨haacts, hapred⟩ := this
    have hap : a.client_id = cid ∧ a.state = ActionState.Pending := by
      simpa using hapred
    refine ⟨haacts, hap.1, hap.2, ?_⟩
    intro b hb hbc hbs
    exact hmin b (List.mem_filter.mpr ⟨hb, by simp [hbc, hbs]⟩)
  · constructor
    · intro h
      unfold Action.get_next at h
      obtain ⟨-, hnil⟩ := get_next_fold_none _ none h
      intro b hb hbp
      have : b ∈ acts.filter
          (fun a => decide (a.client_id = cid ∧ a.state = ActionState.Pending)) :=
        List.mem_filter.mpr ⟨hb, by simp [hbp.1, hbp.2]⟩
      rw [hnil] at this
      cases this
    · intro h
      unfold Action.get_next
      have : acts.filter
          (fun a => decide (a.client_id = cid ∧ a.state = ActionState.Pending)) = [] := by
        rw [List.filter_eq_nil_iff]
        intro b hb
        simpa using h b hb
      rw [this]
      rfl

/-- Witness for C4 on a concrete queue: the Pending action with
`created_at = 3` is selected ahead of a later Pending action, a Running
action, and a Pending action of another client. -/
theorem get_next_returns_earliest_pending_witness :
    (⟨"a2", "u", 3, none, none, ActionCommand.Ping, ActionState.Pending, none, none⟩ : Action) ∈
      ([⟨"a1", "u", 7, none, none, ActionCommand.Ping, ActionState.Pending, none, none⟩,
        ⟨"a2", "u", 3, none, none, ActionCommand.Ping, ActionState.Pending, none, none⟩,
        ⟨"a3", "u", 1, some 2, none, ActionCommand.Shell, ActionState.Running, none, none⟩,
        ⟨"a4", "v", 0, none, none, ActionCommand.Purge, ActionState.Pending, none, none⟩] :
        List Action) ∧
    (⟨"a2", "u", 3, none, none, ActionCommand.Ping, ActionState.Pending, none, none⟩ :
      Action).client_id = "u" ∧
    (⟨"a2", "u", 3, none, none, ActionCommand.Ping, ActionState.Pending, none, none⟩ :
      Action).state = ActionState.Pending ∧
    ∀ b ∈ ([⟨"a1", "u", 7, none, none, ActionCommand.Ping, ActionState.Pending, none, none⟩,
        ⟨"a2", "u", 3, none, none, ActionCommand.Ping, ActionState.Pending, none, none⟩,
        ⟨"a3", "u", 1, some 2, none, ActionCommand.Shell, ActionState.Running, none, none⟩,
        ⟨"a4", "v", 0, none, none, ActionCommand.Purge, ActionState.Pending, none, none⟩] :
        List Action), b.client_id = "u" → b.state = ActionState.Pending →
      (⟨"a2", "u", 3, none, none, ActionCommand.Ping, ActionState.Pending, none, none⟩ :
        Action).created_at ≤ b.created_at :=
  (get_next_returns_earliest_pending "u" _).1 _ (by decide)

/-- C3: whenever the dispatcher loop yields an `Action` message, the
committed store it yields under (the store carried by the `yielded`
outcome, committed strictly before the yield) already records the
corresponding action with `state = Running` and `started_at = now`; an
action is never handed to the agent while still recorded as Pending. -/
theorem dispatch_yield_committed_running (st st2 : Store) (id : String) (now : Nat)
    (msg : ActionMsg)
    (h : Server.dispatch_step st id now = DispatchStep.yielded st2 msg) :
    ∃ a, Action.get msg.id st2.actions = Except.ok a ∧
      a.state = ActionState.Running ∧ a.started_at = some now ∧
      a.state ≠ ActionState.Pending := by
  unfold Server.dispatch_step at h
  cases hcl : Client.get id st.clients with
  | error e => simp only [hcl] at h; cases h
  | ok client =>
    simp only [hcl] at h
    by_cases hc : client.connected = false
    · rw [if_pos hc] at h; cases h
    · rw [if_neg hc] at h
      cases hnext : Action.get_next id st.actions with
      | none => simp only [hnext] at h; cases h
      | some act =>
        simp only [hnext] at h
        have hmem : act ∈ st.actions := Action.get_next_mem hnext
        obtain ⟨b0, hb0, -⟩ := Action.get_ok_of_mem hmem rfl
        have hupd := Action.get_update_found
          { act with started_at := some now, state := ActionState.Running }
          act.id rfl st.actions b0 hb0
        cases hcmd : act.command with
        | Ping =>
          simp only [hcmd] at h
          cases hping : PingCommand.get act.id st.ping with
          | error e => simp only [hping, Except.map] at h; cases h
          | ok p =>
            simp only [hping, Except.map] at h
            injection h with h1 h2
            subst h1
            subst h2
            exact ⟨_, hupd, rfl, rfl, by simp⟩
        | Purge =>
          simp only [hcmd] at h
          injection h with h1 h2
          subst h1
          subst h2
          exact ⟨_, hupd, rfl, rfl, by simp⟩
        | Shell =>
          simp only [hcmd] at h
          cases hsh : ShellCommand.get act.id st.shell with
          | error e => simp only [hsh, Except.map] at h; cases h
          | ok s =>
            simp only [hsh, Except.map] at h
            injection h with h1 h2
            subst h1
            subst h2
            exact ⟨_, hupd, rfl, rfl, by simp⟩

/-- Witness for C3 on a concrete yielding step: the queued Ping with
`created_at = 3` is dispatched and the committed store records it Running
with `started_at = 9`. -/
theorem dispatch_yield_committed_running_witness :
    ∃ a, Action.get "a2"
        (⟨[⟨"u", some "1.2.3.4", true, 5⟩],
          [⟨"a1", "u", 7, none, none, ActionCommand.Ping, ActionState.Pending, none, none⟩,
           ⟨"a2", "u", 3, some 9, none, ActionCommand.Ping, ActionState.Running, none, none⟩],
          [⟨"a1", "ping"⟩, ⟨"a2", "ping"⟩], [], []⟩ : Store).actions = Except.ok a ∧
      a.state = ActionState.Running ∧ a.started_at = some 9 ∧
      a.state ≠ ActionState.Pending :=
  dispatch_yield_committed_running
    ⟨[⟨"u", some "1.2.3.4", true, 5⟩],
     [⟨"a1", "u", 7, none, none, ActionCommand.Ping, ActionState.Pending, none, none⟩,
      ⟨"a2", "u", 3, none, none, ActionCommand.Ping, ActionState.Pending, none, none⟩],
     [⟨"a1", "ping"⟩, ⟨"a2", "ping"⟩], [], []⟩ _ "u" 9 ⟨"a2", some (Command.Ping "ping")⟩
    (by decide)

/-- C2 counterexample: an inbound message with no result variant makes the
pump set `state = Finished` on a non-Purge action while leaving both
`result` and `error` empty, so the Finished-implies-populated invariant is
violated on that path (the claim asserts the path establishes it). -/
theorem poll_results_empty_variant_violation :
    Action.get "a1"
      (Server.poll_results_step
        ⟨[⟨"u", none, true, 5⟩],
         [⟨"a1", "u", 7, some 8, none, ActionCommand.Ping, ActionState.Running, none, none⟩],
         [], [], []⟩ "u" 9 ⟨"a1", none⟩).1.actions =
      Except.ok ⟨"a1", "u", 7, some 8, none, ActionCommand.Ping, ActionState.Finished,
        none, none⟩ ∧
    ActionCommand.Ping ≠ ActionCommand.Purge := by
  decide

/-- C2 as amended: on every inbound message that carries a result variant,
the pump finishes the action with `result` or `error` populated (the Purge
variant with the sentinel result "purged"); on a message with no result
variant, the pump still sets `state = Finished` but leaves `result` and
`error` exactly as stored (so both may be absent) and then breaks the
session. -/
theorem poll_results_finished_invariant (st : Store) (cid : String) (now : Nat) (res : Res)
    (act0 : Action) (c : Client)
    (hget : Action.get res.id st.actions = Except.ok act0)
    (hcl : Client.get cid st.clients = Except.ok c) :
    (∀ r, res.result = some r →
       ∃ af, Action.get res.id (Server.poll_results_step st cid now res).1.actions =
           Except.ok af ∧ af.state = ActionState.Finished ∧
         (af.result.isSome = true ∨ af.error.isSome = true) ∧
         (r = ResResult.Purge → af.result = some (utf8Encode "purged"))) ∧
    (res.result = none →
       ∃ af, Action.get res.id (Server.poll_results_step st cid now res).1.actions =
           Except.ok af ∧ af.state = ActionState.Finished ∧
         af.result = act0.result ∧ af.error = act0.error ∧
         (Server.poll_results_step st cid now res).2 = LoopCtl.brk) := by
  have hid : act0.id = res.id := (Action.lookup_row_ok_mem hget).2
  constructor
  · intro r hr
    cases r with
    | Pong p =>
      unfold Server.poll_results_step
      simp only [hget, hr, hcl]
      have hupd := Action.get_update_found
        { act0 with result := some (utf8Encode p), state := ActionState.Finished }
        res.id hid st.actions act0 hget
      exact ⟨_, hupd, rfl, by simp, by simp⟩
    | Purge =>
      unfold Server.poll_results_step
      simp only [hget, hr, hcl]
      have hupd := Action.get_update_found
        { act0 with result := some (utf8Encode "purged"), state := ActionState.Finished }
        res.id hid st.actions act0 hget
      exact ⟨_, hupd, rfl, by simp, by simp⟩
    | Shell code sout serr =>
      unfold Server.poll_results_step
      simp only [hget, hr, hcl]
      by_cases hcode : code = 0
      · rw [if_neg (show ¬ code ≠ 0 from fun hh => hh hcode)]
        have hupd := Action.get_update_found
          { act0 with result := some sout, state := ActionState.Finished }
          res.id hid st.actions act0 hget
        exact ⟨_, hupd, rfl, Or.inl rfl, by simp⟩
      · rw [if_pos hcode]
        have hupd := Action.get_update_found
          { act0 with error := some serr, state := ActionState.Finished }
          res.id hid st.actions act0 hget
        exact ⟨_, hupd, rfl, Or.inr rfl, by simp⟩
  · intro hr
    unfold Server.poll_results_step
    simp only [hget, hr, hcl]
    have hupd := Action.get_update_found
      { act0 with state := ActionState.Finished }
      res.id hid st.actions act0 hget
    exact ⟨_, hupd, rfl, rfl, rfl, trivial⟩

/-- Witness for the amended C2: a Pong message finishes its action with the
echoed bytes as result, and the sentinel branch holds vacuously. -/
theorem poll_results_finished_invariant_witness :
    ∃ af, Action.get "a1"
        (Server.poll_results_step
          ⟨[⟨"u", none, true, 5⟩],
           [⟨"a1", "u", 7, some 8, none, ActionCommand.Ping, ActionState.Running, none, none⟩],
           [⟨"a1", "ping"⟩], [], []⟩ "u" 9
          ⟨"a1", some (ResResult.Pong "ping")⟩).1.actions = Except.ok af ∧
      af.state = ActionState.Finished ∧
      (af.result.isSome = true ∨ af.error.isSome = true) ∧
      (ResResult.Pong "ping" = ResResult.Purge → af.result = some (utf8Encode "purged")) :=
  (poll_results_finished_invariant
    ⟨[⟨"u", none, true, 5⟩],
     [⟨"a1", "u", 7, some 8, none, ActionCommand.Ping, ActionState.Running, none, none⟩],
     [⟨"a1", "ping"⟩], [], []⟩ "u" 9 ⟨"a1", some (ResResult.Pong "ping")⟩
    ⟨"a1", "u", 7, some 8, none, ActionCommand.Ping, ActionState.Running, none, none⟩
    ⟨"u", none, true, 5⟩ (by decide) (by decide)).1 _ rfl

/-- C6: an inbound Shell result message for action id `aid` deletes the
shell side-table row for `aid`; if the exit code is 0 the action's result
is set to stdout and its error stays empty, otherwise its error is set to
stderr and its result stays empty; and its state is set to Finished. -/
theorem shell_result_handling (st : Store) (cid : String) (now : Nat) (aid : String)
    (code : Int) (sout serr : List Nat) (act0 : Action) (c : Client)
    (hget : Action.get aid st.actions = Except.ok act0)
    (hres0 : act0.result = none) (herr0 : act0.error = none)
    (hcl : Client.get cid st.clients = Except.ok c) :
    (∀ s ∈ (Server.poll_results_step st cid now
        ⟨aid, some (ResResult.Shell code sout serr)⟩).1.shell, ¬ s.id = aid) ∧
    ∃ af, Action.get aid (Server.poll_results_step st cid now
        ⟨aid, some (ResResult.Shell code sout serr)⟩).1.actions = Except.ok af ∧
      af.state = ActionState.Finished ∧
      (code = 0 → af.result = some sout ∧ af.error = none) ∧
      (¬ code = 0 → af.error = some serr ∧ af.result = none) := by
  have hid : act0.id = aid := (Action.lookup_row_ok_mem hget).2
  constructor
  · unfold Server.poll_results_step
    simp only [hget, hcl]
    intro s hs
    simpa using (List.mem_filter.mp hs).2
  · unfold Server.poll_results_step
    simp only [hget, hcl]
    by_cases hcode : code = 0
    · rw [if_neg (show ¬ code ≠ 0 from fun hh => hh hcode)]
      have hupd := Action.get_update_found
        { act0 with result := some sout, state := ActionState.Finished }
        aid hid st.actions act0 hget
      exact ⟨_, hupd, rfl, fun _ => ⟨rfl, herr0⟩, fun hcontra => absurd hcode hcontra⟩
    · rw [if_pos hcode]
      have hupd := Action.get_update_found
        { act0 with error := some serr, state := ActionState.Finished }
        aid hid st.actions act0 hget
      exact ⟨_, hupd, rfl, fun hcontra => absurd hcontra hcode, fun _ => ⟨rfl, hres0⟩⟩

/-- Witness for C6: a failing shell result (`code = 1`, stderr "b") on a
concrete store deletes the shell row and finishes the action with only the
error populated. -/
theorem shell_result_handling_witness :
    (∀ s ∈ (Server.poll_results_step
        ⟨[⟨"u", none, true, 5⟩],
         [⟨"a1", "u", 7, some 8, none, ActionCommand.Shell, ActionState.Running, none, none⟩],
         [], [⟨"a1", "false", [], []⟩], []⟩ "u" 9
        ⟨"a1", some (ResResult.Shell 1 [] [98])⟩).1.shell, ¬ s.id = "a1") ∧
    ∃ af, Action.get "a1" (Server.poll_results_step
        ⟨[⟨"u", none, true, 5⟩],
         [⟨"a1", "u", 7, some 8, none, ActionCommand.Shell, ActionState.Running, none, none⟩],
         [], [⟨"a1", "false", [], []⟩], []⟩ "u" 9
        ⟨"a1", some (ResResult.Shell 1 [] [98])⟩).1.actions = Except.ok af ∧
      af.state = ActionState.Finished ∧
      ((1 : Int) = 0 → af.result = some [] ∧ af.error = none) ∧
      (¬ (1 : Int) = 0 → af.error = some [98] ∧ af.result = none) :=
  shell_result_handling
    ⟨[⟨"u", none, true, 5⟩],
     [⟨"a1", "u", 7, some 8, none, ActionCommand.Shell, ActionState.Running, none, none⟩],
     [], [⟨"a1", "false", [], []⟩], []⟩ "u" 9 "a1" 1 [] [98]
    ⟨"a1", "u", 7, some 8, none, ActionCommand.Shell, ActionState.Running, none, none⟩
    ⟨"u", none, true, 5⟩ (by decide) rfl rfl (by decide)

/-- The poll loop of `wait_for_result` breaks exactly at the first
Finished observation: when it yields an action, that action is Finished,
it occurs in the observation list, and every earlier observation is either
an error tick or a non-Finished action. -/
theorem wait_loop_some {obs : List WaitObs} {a : Action} (h : wait_loop obs = some a) :
    a.state = ActionState.Finished ∧
    ∃ pre post, obs = pre ++ Except.ok a :: post ∧
      ∀ o ∈ pre, ∀ b, o = Except.ok b → ¬ b.state = ActionState.Finished := by
  induction obs with
  | nil => cases h
  | cons o rest ih =>
    cases o with
    | error e =>
      simp only [wait_loop] at h
      obtain ⟨hf, pre, post, heq, hpre⟩ := ih h
      refine ⟨hf, Except.error e :: pre, post, by rw [heq]; rfl, ?_⟩
      intro o ho b hob
      cases List.mem_cons.mp ho with
      | inl h1 => rw [h1] at hob; cases hob
      | inr h2 => exact hpre o h2 b hob
    | ok b0 =>
      simp only [wait_loop] at h
      by_cases hb : b0.state = ActionState.Finished
      · rw [if_pos hb] at h
        injection h with h
        subst h
        exact ⟨hb, [], rest, rfl, by intro o ho; cases ho⟩
      · rw [if_neg hb] at h
        obtain ⟨hf, pre, post, heq, hpre⟩ := ih h
        refine ⟨hf, Except.ok b0 :: pre, post, by rw [heq]; rfl, ?_⟩
        intro o ho b hob
        cases List.mem_cons.mp ho with
        | inl h1 =>
          rw [h1] at hob
          injection hob with hob
          rw [← hob]
          exact hb
        | inr h2 => exact hpre o h2 b hob

/-- The poll loop of `wait_for_result` runs out of its observations
without returning exactly when no tick observed a Finished action. -/
theorem wait_loop_none {obs : List WaitObs} :
    wait_loop obs = none ↔
      ∀ o ∈ obs, ∀ b, o = Except.ok b → ¬ b.state = ActionState.Finished := by
  induction obs with
  | nil => simp [wait_loop]
  | cons o rest ih =>
    cases o with
    | error e =>
      simp only [wait_loop]
      rw [ih]
      constructor
      · intro h o ho b hob
        cases List.mem_cons.mp ho with
        | inl h1 => rw [h1] at hob; cases hob
        | inr h2 => exact h o h2 b hob
      · intro h o ho b hob
        exact h o (List.mem_cons_of_mem _ ho) b hob
    | ok b0 =>
      simp only [wait_loop]
      by_cases hb : b0.state = ActionState.Finished
      · rw [if_pos hb]
        constructor
        · intro h; cases h
        · intro h; exact absurd hb (h _ (List.mem_cons_self _ _) b0 rfl)
      · rw [if_neg hb]
        rw [ih]
        constructor
        · intro h o ho b hob
          cases List.mem_cons.mp ho with
          | inl h1 =>
            rw [h1] at hob
            injection hob with hob
            rw [← hob]
            exact hb
          | inr h2 => exact h o h2 b hob
        · intro h o ho b hob
          exact h o (List.mem_cons_of_mem _ ho) b hob

/-- C9: `wait_for_result` polls every 2 seconds; it returns precisely at
the first poll tick that observes `state = Finished` (all earlier ticks
being errors, which are logged and retried, or non-Finished observations);
its `Result` is always `Ok`, never an error; and it does not return at all
when no tick observes a Finished state. -/
theorem wait_for_result_spec (obs : List WaitObs) :
    WAIT_POLL_INTERVAL = 2 ∧
    (∀ r, wait_for_result obs = some r →
       ∃ a, r = Except.ok a ∧ a.state = ActionState.Finished) ∧
    (∀ a, wait_loop obs = some a →
       a.state = ActionState.Finished ∧
       ∃ pre post, obs = pre ++ Except.ok a :: post ∧
         ∀ o ∈ pre, ∀ b, o = Except.ok b → ¬ b.state = ActionState.Finished) ∧
    (wait_loop obs = none ↔
       ∀ o ∈ obs, ∀ b, o = Except.ok b → ¬ b.state = ActionState.Finished) := by
  refine ⟨rfl, ?_, ?_, wait_loop_none⟩
  · intro r hr
    unfold wait_for_result at hr
    cases hw : wait_loop obs with
    | none => rw [hw] at hr; cases hr
    | some a =>
      rw [hw] at hr
      injection hr with hr
      exact ⟨a, hr.symm, (wait_loop_some hw).1⟩
  · intro a ha
    exact wait_loop_some ha

/-- Witness for C9 on a concrete observation list: an error tick followed
by a Running observation are skipped, and the loop returns at the first
Finished observation. -/
theorem wait_for_result_spec_witness :
    ∃ a, (Except.ok ⟨"a1", "u", 7, some 8, none, ActionCommand.Ping, ActionState.Finished,
        none, some [1]⟩ : WaitObs) = Except.ok a ∧ a.state = ActionState.Finished :=
  (wait_for_result_spec
    [Except.error ⟨ErrorKind.DB, "x"⟩,
     Except.ok ⟨"a1", "u", 7, some 8, none, ActionCommand.Ping, ActionState.Running, none, none⟩,
     Except.ok ⟨"a1", "u", 7, some 8, none, ActionCommand.Ping, ActionState.Finished, none,
       some [1]⟩]).2.1 _ (by decide)

/-- C8: the action-issuing control RPCs use the kind-specific timeouts
Ping 10 s, Purge 60 s and Shell 3600 s; when none of the poll ticks that
fit in the timeout observes the created action Finished, each RPC returns
`DeadlineExceeded "action timeout"` and its store is exactly the
post-insert store: the created action row is still there as inserted (in
whatever state the rest of the system left the database), neither deleted
nor rewritten by the RPC. -/
theorem action_rpc_timeout (st : Store) (now : Nat) (act_id req_id : String)
    (cmd : String) (args : List String) (stdin : List Nat)
    (obs : List WaitObs) (c : Client)
    (hcl : Client.get req_id st.clients = Except.ok c)
    (hfa : st.actions.any (fun r => r.id = act_id) = false)
    (hfp : st.ping.any (fun r => r.id = act_id) = false)
    (hfs : st.shell.any (fun r => r.id = act_id) = false)
    (hobs : ∀ o ∈ obs, ∀ b, o = Except.ok b → ¬ b.state = ActionState.Finished) :
    CliServer.PING_TIMEOUT = 10 ∧ CliServer.PURGE_TIMEOUT = 60 ∧
    CliServer.SHELL_TIMEOUT = 3600 ∧
    CliServer.ping st now act_id req_id obs =
      ({ st with actions := st.actions ++ [Action.new act_id now c.id ActionCommand.Ping],
                 ping := st.ping ++ [⟨act_id, "ping"⟩] },
       Except.error (Status.deadlineExceeded "action timeout")) ∧
    CliServer.purge st now act_id req_id obs =
      ({ st with actions := st.actions ++ [Action.new act_id now c.id ActionCommand.Purge] },
       Except.error (Status.deadlineExceeded "action timeout")) ∧
    CliServer.shell st now act_id req_id cmd args stdin obs =
      ({ st with actions := st.actions ++ [Action.new act_id now c.id ActionCommand.Shell],
                 shell := st.shell ++ [⟨act_id, cmd, args, stdin⟩] },
       Except.error (Status.deadlineExceeded "action timeout")) := by
  have hwl : wait_loop obs = none := wait_loop_none.mpr hobs
  refine ⟨rfl, rfl, rfl, ?_, ?_, ?_⟩
  · simp [CliServer.ping, hcl, Action.create, PingCommand.create, Action.new,
      hfa, hfp, wait_for_result, hwl]
  · simp [CliServer.purge, hcl, Action.create, Action.new, hfa, wait_for_result, hwl]
  · simp [CliServer.shell, hcl, Action.create, ShellCommand.create, Action.new,
      hfa, hfs, wait_for_result, hwl]

/-- Witness for C8 on a concrete store where the only poll tick inside the
timeout sees the action still Running. -/
theorem action_rpc_timeout_witness :
    (CliServer.ping ⟨[⟨"u", none, true, 5⟩], [], [], [], []⟩ 9 "f" "u"
      [Except.ok ⟨"f", "u", 9, some 9, none, ActionCommand.Ping, ActionState.Running,
        none, none⟩]).2 =
      Except.error (Status.deadlineExceeded "action timeout") :=
  congrArg Prod.snd
    (action_rpc_timeout ⟨[⟨"u", none, true, 5⟩], [], [], [], []⟩ 9 "f" "u" "x" [] []
      [Except.ok ⟨"f", "u", 9, some 9, none, ActionCommand.Ping, ActionState.Running,
        none, none⟩]
      ⟨"u", none, true, 5⟩ (by decide) rfl rfl rfl
      (by
        intro o ho b hob
        rw [List.mem_singleton] at ho
        rw [ho] at hob
        injection hob with hob
        rw [← hob]
        decide)).2.2.2.1

/-- C7 counterexample: a Ping RPC that observes its action Finished with a
result that is not decodable as UTF-8 (the byte 255) fails with
`InvalidArgument "cannot parse ping response"`, not with `Unavailable` as
the claim states for that case. -/
theorem ping_invalid_utf8_not_unavailable :
    (CliServer.ping ⟨[⟨"u", none, true, 5⟩], [], [], [], []⟩ 9 "f" "u"
      [Except.ok ⟨"f", "u", 9, some 9, none, ActionCommand.Ping, ActionState.Finished, none,
        some [255]⟩]).2 =
      Except.error (Status.invalidArgument "cannot parse ping response") ∧
    StatusCode.invalidArgument ≠ StatusCode.unavailable := by
  decide

/-- C7 as amended: when a Ping RPC observes its action Finished within the
timeout, a result that decodes to the exact nonce "ping" yields the empty
`PingResponse`; an absent result or a decoded value different from the
nonce yields `Unavailable`; and a present but non-UTF-8-decodable result
yields `InvalidArgument "cannot parse ping response"` (the BadRequest
mapping), not `Unavailable`. -/
theorem ping_result_check (st : Store) (now : Nat) (act_id req_id : String)
    (obs : List WaitObs) (c : Client) (act : Action)
    (hcl : Client.get req_id st.clients = Except.ok c)
    (hfa : st.actions.any (fun r => r.id = act_id) = false)
    (hfp : st.ping.any (fun r => r.id = act_id) = false)
    (hw : wait_loop obs = some act) :
    (∀ bytes, act.result = some bytes →
       utf8Decode bytes = some (strCodepoints "ping") →
       (CliServer.ping st now act_id req_id obs).2 = Except.ok PingResponse.mk) ∧
    (act.result = none →
       (CliServer.ping st now act_id req_id obs).2 =
         Except.error (Status.unavailable "could not receive ping from client")) ∧
    (∀ bytes cps, act.result = some bytes → utf8Decode bytes = some cps →
       ¬ cps = strCodepoints "ping" →
       (CliServer.ping st now act_id req_id obs).2 =
         Except.error (Status.unavailable "could not receive ping from client")) ∧
    (∀ bytes, act.result = some bytes → utf8Decode bytes = none →
       (CliServer.ping st now act_id req_id obs).2 =
         Except.error (Status.invalidArgument "cannot parse ping response")) := by
  refine ⟨?_, ?_, ?_, ?_⟩
  · intro bytes hres hdec
    simp [CliServer.ping, hcl, Action.create, PingCommand.create, Action.new, hfa, hfp,
      wait_for_result, hw, hres, hdec]
  · intro hres
    simp [CliServer.ping, hcl, Action.create, PingCommand.create, Action.new, hfa, hfp,
      wait_for_result, hw, hres]
  · intro bytes cps hres hdec hne
    simp [CliServer.ping, hcl, Action.create, PingCommand.create, Action.new, hfa, hfp,
      wait_for_result, hw, hres, hdec, hne]
  · intro bytes hres hdec
    simp [CliServer.ping, hcl, Action.create, PingCommand.create, Action.new, hfa, hfp,
      wait_for_result, hw, hres, hdec, Err.toStatus, Err.badRequest]

/-- Witness for the amended C7: a result carrying the UTF-8 bytes of
"ping" makes the RPC succeed with the empty response. -/
theorem ping_result_check_witness :
    (CliServer.ping ⟨[⟨"u", none, true, 5⟩], [], [], [], []⟩ 9 "f" "u"
      [Except.ok ⟨"f", "u", 9, some 9, none, ActionCommand.Ping, ActionState.Finished, none,
        some [112, 105, 110, 103]⟩]).2 = Except.ok PingResponse.mk :=
  (ping_result_check ⟨[⟨"u", none, true, 5⟩], [], [], [], []⟩ 9 "f" "u"
    [Except.ok ⟨"f", "u", 9, some 9, none, ActionCommand.Ping, ActionState.Finished, none,
      some [112, 105, 110, 103]⟩]
    ⟨"u", none, true, 5⟩
    ⟨"f", "u", 9, some 9, none, ActionCommand.Ping, ActionState.Finished, none,
      some [112, 105, 110, 103]⟩
    (by decide) rfl rfl (by decide)).1 [112, 105, 110, 103] rfl (by decide)

/-- C5 counterexample: the sweeper's final pass on a store whose only
client is connected with a recorded address leaves the stored `address`
column untouched (the in-memory clear is not part of the
`UPDATE clients SET (connected, last_online)` statement), so the stored
row does not satisfy `address = null` as the claim states. -/
theorem gc_final_pass_keeps_address :
    (gc_final_pass ⟨[⟨"u", some "1.2.3.4", true, 5⟩], [], [], [], []⟩).clients =
      [⟨"u", some "1.2.3.4", false, 5⟩] ∧
    ¬ ∀ r ∈ (gc_final_pass ⟨[⟨"u", some "1.2.3.4", true, 5⟩], [], [], [], []⟩).clients,
        r.address = none := by
  decide

/-- Every client row is disconnected after the sweeper's final fold,
provided every connected row's id is covered by the folded list. -/
theorem gc_fold_all_disconnected :
    ∀ (l : List Client) (st : Store),
      (∀ r ∈ st.clients, r.connected = false ∨ ∃ c ∈ l, r.id = c.id) →
      ∀ r ∈ (l.foldl (fun acc c =>
          { acc with
            clients := Client.update { c with connected := false, address := none }
              acc.clients }) st).clients,
        r.connected = false := by
  intro l
  induction l with
  | nil =>
    intro st hinv r hr
    cases hinv r hr with
    | inl h => exact h
    | inr h => obtain ⟨c, hc, -⟩ := h; cases hc
  | cons c0 l' ih =>
    intro st hinv
    rw [List.foldl_cons]
    apply ih
    intro r' hr'
    unfold Client.update at hr'
    obtain ⟨r, hr, hgr⟩ := List.mem_map.mp hr'
    by_cases hrid : r.id = c0.id
    · left
      rw [← hgr]
      simp [hrid]
    · have hgr' : r' = r := by
        rw [← hgr]
        simp [hrid]
      rw [hgr']
      cases hinv r hr with
      | inl h => exact Or.inl h
      | inr h =>
        obtain ⟨c2, hc2, hid2⟩ := h
        cases List.mem_cons.mp hc2 with
        | inl h1 => exact absurd (h1 ▸ hid2) hrid
        | inr h2 => exact Or.inr ⟨c2, h2, hid2⟩

/-- The sweeper's final fold never changes the stored `address` column of
any client row. -/
theorem gc_fold_address_unchanged :
    ∀ (l : List Client) (st : Store),
      (l.foldl (fun acc c =>
          { acc with
            clients := Client.update { c with connected := false, address := none }
              acc.clients }) st).clients.map (fun r => r.address) =
        st.clients.map (fun r => r.address) := by
  intro l
  induction l with
  | nil => intro st; rfl
  | cons c0 l' ih =>
    intro st
    rw [List.foldl_cons, ih]
    unfold Client.update
    rw [List.map_map]
    apply List.map_congr_left
    intro r hr
    by_cases hrid : r.id = c0.id
    · simp [hrid]
    · simp [hrid]

/-- C5 as amended: the sweeper's final shutdown pass persists
`connected = false` for every client row, and session teardown persists
`connected = false` with a refreshed `last_online` for the session's
client; in both cases the stored `address` column is left unchanged,
because `Client::update` writes only the `connected` and `last_online`
columns (the in-memory address clear is not persisted). -/
theorem gc_shutdown_disconnects (st : Store) :
    (∀ r ∈ (gc_final_pass st).clients, r.connected = false) ∧
    ((gc_final_pass st).clients.map (fun r => r.address) =
      st.clients.map (fun r => r.address)) ∧
    (∀ (cid : String) (now : Nat) (c : Client), Client.get cid st.clients = Except.ok c →
       (Server.poll_results_teardown st cid now).clients =
         st.clients.map (fun r =>
           if r.id = cid then { r with connected := false, last_online := now } else r)) := by
  refine ⟨?_, ?_, ?_⟩
  · unfold gc_final_pass
    apply gc_fold_all_disconnected
    intro r hr
    cases hconn : r.connected with
    | false => exact Or.inl rfl
    | true =>
      right
      exact ⟨r, List.mem_filter.mpr ⟨hr, by simp [hconn]⟩, rfl⟩
  · unfold gc_final_pass
    exact gc_fold_address_unchanged _ st
  · intro cid now c hc
    have hcid := (Client.lookup_ok_mem hc).2
    unfold Server.poll_results_teardown
    simp only [hc]
    unfold Client.update
    simp only [hcid]

/-- Witness for the amended C5 on a concrete connected client: after the
final pass the row is disconnected, and teardown rewrites the row as the
update statement does. -/
theorem gc_shutdown_disconnects_witness :
    (∀ r ∈ (gc_final_pass ⟨[⟨"u", some "1.2.3.4", true, 5⟩], [], [], [], []⟩).clients,
       r.connected = false) ∧
    (Server.poll_results_teardown ⟨[⟨"u", some "1.2.3.4", true, 5⟩], [], [], [], []⟩
        "u" 9).clients =
      ([⟨"u", some "1.2.3.4", true, 5⟩] : List Client).map (fun r =>
        if r.id = "u" then { r with connected := false, last_online := 9 } else r) :=
  ⟨(gc_shutdown_disconnects ⟨[⟨"u", some "1.2.3.4", true, 5⟩], [], [], [], []⟩).1,
   (gc_shutdown_disconnects ⟨[⟨"u", some "1.2.3.4", true, 5⟩], [], [], [], []⟩).2.2
     "u" 9 ⟨"u", some "1.2.3.4", true, 5⟩ (by decide)⟩

end NotSSH
